import Mathlib

/-!
Verification development for the line-follower firmware
(source: src/line_follower.c, AVR target: int is 16 bits, long is 32 bits).

Modelling choices:
- C integers are modelled as unbounded `Int`.  Under the sensor input range
  (10-bit ADC, readings in [0, 1023], 6 sensors) none of the intermediate
  C computations in `read_qrt_line` overflow their C types
  (sum <= 6138 < 2^16, weighted average <= 15345000 < 2^32), so the `Int`
  model is exact there.  The one place where C modular arithmetic is
  observable, the `unsigned int` narrowing and subtraction producing the
  controller error, is modelled exactly with 16-bit wrap (`toUInt16`,
  `toInt16`, `error_of`).
- The float constants KP = 0.0515, KI = 0.00000267, KD = 0.00035 are decimal
  literals; the PID expression is modelled as the exact rational value
  (5150000 * error + 267 * integral + 35000 * (error - last_error)) / 10^8,
  with the float-to-int conversion truncating toward zero (`itrunc`).
- The statics of `read_qrt_line` (last_value) and `handle_move`
  (last_error, integral, reset_integral) become explicit state
  (`MoveState`), threaded through each call.
-/

namespace LineFollower

/-- Number of reflectance sensors (SENSOR_NUM in line_follower.c). -/
def SENSOR_NUM : Int := 6

/-- Values below this are treated as noise (NOISE_THRESHOLD). -/
def NOISE_THRESHOLD : Int := 50

/-- A reading above this means the sensor is on the line (ON_TRACK_VALUE). -/
def ON_TRACK_VALUE : Int := 200

/-- Base speed of the motors (BASE_SPEED). -/
def BASE_SPEED : Int := 175

/-- Maximum speed of the motors (MAX_SPEED). -/
def MAX_SPEED : Int := 240

/-- Calibrated left-motor maximum (LEFT_MAX_SPEED); defined in the C file
but never referenced by any code. -/
def LEFT_MAX_SPEED : Int := 220

/-- Calibrated right-motor maximum (RIGHT_MAX_SPEED); defined in the C file
but never referenced by any code. -/
def RIGHT_MAX_SPEED : Int := 210

/-- Per-sensor heuristic weight spacing (HEUR_OFFSET). -/
def HEUR_OFFSET : Int := 1000

/-- Estimate value representing a perfectly centered line (MIDDLE_ERROR). -/
def MIDDLE_ERROR : Int := 2500

/-- Number of controller calls between integral resets (INTEGRAL_RESET_ITER). -/
def INTEGRAL_RESET_ITER : Int := 125

/-- Upper bound of a 10-bit ADC reading. -/
def SENSOR_MAX : Int := 1023

/-- A sensor vector as read by `read_line_input`: exactly SENSOR_NUM
readings, each a 10-bit ADC conversion result in [0, SENSOR_MAX]. -/
def validInput (vs : List Int) : Prop :=
  (vs.length : Int) = SENSOR_NUM ∧ ∀ v ∈ vs, 0 ≤ v ∧ v ≤ SENSOR_MAX

instance (vs : List Int) : Decidable (validInput vs) := by
  unfold validInput; infer_instance

/-- C function `clamp(int value, uint8_t min, uint8_t max)`. -/
def clamp (value mn mx : Int) : Int :=
  if value < mn then mn
  else if value > mx then mx
  else value

/-- Loop accumulator of `read_qrt_line`: the locals average, sum,
heur_offset and on_track. -/
structure QrtAcc where
  average : Int
  sum : Int
  heur_offset : Int
  on_track : Bool
  deriving DecidableEq

/-- One iteration of the sensor loop in `read_qrt_line` (lines 170-186):
a reading above ON_TRACK_VALUE sets on_track; a reading above
NOISE_THRESHOLD is added (weighted) to average and (raw) to sum;
heur_offset advances by HEUR_OFFSET every iteration. -/
def qrtStep (s : QrtAcc) (value : Int) : QrtAcc :=
  { average := if value > NOISE_THRESHOLD then s.average + value * s.heur_offset else s.average
    sum := if value > NOISE_THRESHOLD then s.sum + value else s.sum
    heur_offset := s.heur_offset + HEUR_OFFSET
    on_track := if value > ON_TRACK_VALUE then true else s.on_track }

/-- The full sensor loop of `read_qrt_line`, from the zero-initialised locals. -/
def qrtScan (values : List Int) : QrtAcc :=
  values.foldl qrtStep ⟨0, 0, 0, false⟩

/-- C function `read_qrt_line` (lines 159-204).  The static `last_value`
is passed in and the updated static is returned alongside the result:
the pair is (return value, new last_value).  `HEUR_OFFSET >> 1` is
written `HEUR_OFFSET / 2` (equal on this nonnegative constant).
Divisions here are on nonnegative operands, where `Int` division agrees
with the C unsigned division. -/
def read_qrt_line (last_value : Int) (values : List Int) : Int × Int :=
  let s := qrtScan values
  if s.on_track = false then
    if last_value < (SENSOR_NUM - 1) * (HEUR_OFFSET / 2) then (0, last_value)
    else ((SENSOR_NUM - 1) * HEUR_OFFSET, last_value)
  else
    let nv := s.average / s.sum
    (nv, nv)

/-- Conversion of an integer to C `unsigned int` (16-bit on AVR):
reduction modulo 2^16, yielding a value in [0, 65535]. -/
def toUInt16 (n : Int) : Int := n % 65536

/-- Reinterpretation of a 16-bit unsigned value as C `int` (16-bit
two-complement on AVR). -/
def toInt16 (n : Int) : Int :=
  if n % 65536 < 32768 then n % 65536 else n % 65536 - 65536

/-- Line 222-223 of `handle_move`:
`unsigned int position = read_qrt_line(values); int error = position - MIDDLE_ERROR;`
The subtraction happens in unsigned 16-bit arithmetic and the result is
stored into a signed int. -/
def error_of (position : Int) : Int :=
  toInt16 (toUInt16 position - MIDDLE_ERROR)

/-- Truncating division toward zero on a positive divisor: the semantics
of the C float-to-int conversion applied to an exact rational a / b. -/
def itrunc (a b : Int) : Int :=
  if a < 0 then -((-a) / b) else a / b

/-- Scaled numerator of KP = 0.0515 over the common denominator 10^8. -/
def KP_NUM : Int := 5150000

/-- Scaled numerator of KI = 0.00000267 over the common denominator 10^8. -/
def KI_NUM : Int := 267

/-- Scaled numerator of KD = 0.00035 over the common denominator 10^8. -/
def KD_NUM : Int := 35000

/-- Common denominator 10^8 of the three PID gains. -/
def PID_DEN : Int := 100000000

/-- Line 227 of `handle_move`:
`int pid = KP * error + KI * integral + KD * (error - last_error);`
modelled as the exact rational value of the expression, truncated to int. -/
def pid_of (error integral last_error : Int) : Int :=
  itrunc (KP_NUM * error + KI_NUM * integral + KD_NUM * (error - last_error)) PID_DEN

/-- Lines 229-236 of `handle_move`: both motor commands derive from
BASE_SPEED plus/minus the correction and are clamped to [0, MAX_SPEED]. -/
def motor_speeds (pid : Int) : Int × Int :=
  (clamp (BASE_SPEED + pid) 0 MAX_SPEED, clamp (BASE_SPEED - pid) 0 MAX_SPEED)

/-- The persistent state of one control cycle: the statics of
`handle_move` (last_error, integral, reset_integral) and the static
`last_value` of `read_qrt_line`.  All start at 0. -/
structure MoveState where
  last_error : Int
  integral : Int
  reset_integral : Int
  last_value : Int
  deriving DecidableEq

/-- The initial state: every static starts at 0. -/
def initState : MoveState := ⟨0, 0, 0, 0⟩

/-- C function `handle_move` (lines 206-252), modelled as a state
transition returning the two motor commands (left, right) and the new
static state.  Note that the C code reads the static `last_error` in the
derivative term but never assigns to it, so the returned state carries
it through unchanged. -/
def handle_move (st : MoveState) (values : List Int) : (Int × Int) × MoveState :=
  let integral0 := if st.reset_integral = INTEGRAL_RESET_ITER then 0 else st.integral
  let reset0 := if st.reset_integral = INTEGRAL_RESET_ITER then 0 else st.reset_integral
  let pr := read_qrt_line st.last_value values
  let error := error_of pr.1
  let integral1 := integral0 + error
  let pid := pid_of error integral1 st.last_error
  (motor_speeds pid,
   { last_error := st.last_error
     integral := integral1
     reset_integral := reset0 + 1
     last_value := pr.2 })

/-- Iterated control cycles: fold `handle_move` over a list of sensor
vectors, keeping only the state. -/
def run_move (st : MoveState) (inputs : List (List Int)) : MoveState :=
  inputs.foldl (fun s vs => (handle_move s vs).2) st

/-- Iterated estimator calls: fold `read_qrt_line` over a list of sensor
vectors, keeping only the stored last_value. -/
def run_qrt (last_value : Int) (inputs : List (List Int)) : Int :=
  inputs.foldl (fun lv vs => (read_qrt_line lv vs).2) last_value

/-- Modelled from the words of the specification: the weighted sum
`Σ(weight_i * value_i)` over qualifying readings (those strictly above
NOISE_THRESHOLD), with weight_i = i * HEUR_OFFSET and i counted from k. -/
def specWeightedSumFrom (k : Nat) (vs : List Int) : Int :=
  ((vs.enumFrom k).map
    (fun p => if p.2 > NOISE_THRESHOLD then ((p.1 : Int) * HEUR_OFFSET) * p.2 else 0)).sum

/-- Modelled from the words of the specification: the weighted sum of the
readings, indices counted from 0. -/
def specWeightedSum (vs : List Int) : Int := specWeightedSumFrom 0 vs

/-- Modelled from the words of the specification: `Σ(value_i)` over
qualifying readings (those strictly above NOISE_THRESHOLD). -/
def specSum (vs : List Int) : Int :=
  (vs.map (fun v => if v > NOISE_THRESHOLD then v else 0)).sum

/-- Invariant of the sensor-loop accumulator: all quantities are
nonnegative, the weighted sum is bounded by the plain sum times the
largest weight used so far, and once on_track is set the plain sum is
positive. -/
def QrtInv (s : QrtAcc) : Prop :=
  0 ≤ s.average ∧ 0 ≤ s.sum ∧ 0 ≤ s.heur_offset ∧
  s.average ≤ s.sum * (s.heur_offset - HEUR_OFFSET) ∧
  (s.on_track = true → 0 < s.sum)

/-! Fold lemmas about the sensor loop of `read_qrt_line`. -/

theorem foldl_on_track (vs : List Int) : ∀ s : QrtAcc,
    (vs.foldl qrtStep s).on_track
      = (s.on_track || vs.any fun v => decide (v > ON_TRACK_VALUE)) := by
  induction vs with
  | nil => intro s; simp
  | cons v vs ih =>
    intro s
    rw [List.foldl_cons, List.any_cons, ih]
    by_cases h : v > ON_TRACK_VALUE <;>
      simp [qrtStep, h, Bool.or_comm, Bool.or_assoc, Bool.or_left_comm]

theorem foldl_sum (vs : List Int) : ∀ s : QrtAcc,
    (vs.foldl qrtStep s).sum = s.sum + specSum vs := by
  induction vs with
  | nil => intro s; simp [specSum]
  | cons v vs ih =>
    intro s
    rw [List.foldl_cons, ih]
    by_cases h : v > NOISE_THRESHOLD <;>
      (simp [qrtStep, h, specSum]; try ring)

theorem foldl_average (vs : List Int) : ∀ (s : QrtAcc) (k : Nat),
    s.heur_offset = (k : Int) * HEUR_OFFSET →
    (vs.foldl qrtStep s).average = s.average + specWeightedSumFrom k vs := by
  induction vs with
  | nil => intro s k hk; simp [specWeightedSumFrom]
  | cons v vs ih =>
    intro s k hk
    rw [List.foldl_cons]
    have hk2 : (qrtStep s v).heur_offset = ((k + 1 : Nat) : Int) * HEUR_OFFSET := by
      simp [qrtStep, hk]; ring
    rw [ih (qrtStep s v) (k + 1) hk2]
    by_cases h : v > NOISE_THRESHOLD <;>
      (simp [qrtStep, h, specWeightedSumFrom, List.enumFrom_cons, hk]; try ring)

theorem foldl_heur (vs : List Int) : ∀ s : QrtAcc,
    (vs.foldl qrtStep s).heur_offset = s.heur_offset + (vs.length : Int) * HEUR_OFFSET := by
  induction vs with
  | nil => intro s; simp
  | cons v vs ih =>
    intro s
    rw [List.foldl_cons, ih]
    simp [qrtStep]
    ring

theorem qrtStep_inv (s : QrtAcc) (v : Int) (h : QrtInv s) : QrtInv (qrtStep s v) := by
  obtain ⟨h1, h2, h3, h4, h5⟩ := h
  have hsum_mono : s.sum * (s.heur_offset - HEUR_OFFSET) ≤ s.sum * s.heur_offset := by
    have hterm : (0 : Int) ≤ s.sum * HEUR_OFFSET :=
      mul_nonneg h2 (by norm_num [HEUR_OFFSET])
    nlinarith [hterm]
  unfold QrtInv qrtStep
  by_cases hv : v > NOISE_THRESHOLD
  · have hvpos : (0 : Int) < v := lt_trans (by norm_num [NOISE_THRESHOLD]) hv
    refine ⟨?_, ?_, ?_, ?_, ?_⟩
    · simp only [hv, if_pos]
      have : (0 : Int) ≤ v * s.heur_offset := mul_nonneg (le_of_lt hvpos) h3
      linarith
    · simp only [hv, if_pos]; linarith
    · simp only [HEUR_OFFSET] at *; linarith
    · simp only [hv, if_pos]
      have hvw : v * s.heur_offset ≤ v * s.heur_offset := le_refl _
      have : s.average + v * s.heur_offset ≤ (s.sum + v) * s.heur_offset := by
        nlinarith [hsum_mono]
      simpa [add_sub_cancel_right] using this
    · intro _
      simp only [hv, if_pos]
      linarith
  · refine ⟨?_, ?_, ?_, ?_, ?_⟩
    · simpa [hv] using h1
    · simpa [hv] using h2
    · simp only [HEUR_OFFSET] at *; linarith
    · simpa [hv, add_sub_cancel_right] using le_trans h4 hsum_mono
    · intro hot
      have hnt : ¬ v > ON_TRACK_VALUE := by
        intro hvt
        exact hv (lt_trans (by norm_num [NOISE_THRESHOLD, ON_TRACK_VALUE]) hvt)
      simp only [hnt, if_neg, hv] at hot ⊢
      exact h5 hot

theorem foldl_inv (vs : List Int) : ∀ s : QrtAcc, QrtInv s → QrtInv (vs.foldl qrtStep s) := by
  induction vs with
  | nil => intro s h; exact h
  | cons v vs ih =>
    intro s h
    rw [List.foldl_cons]
    exact ih _ (qrtStep_inv s v h)

theorem qrtScan_inv (vs : List Int) : QrtInv (qrtScan vs) := by
  apply foldl_inv
  refine ⟨le_refl 0, le_refl 0, le_refl 0, ?_, ?_⟩
  · simp
  · intro h; cases h

/-- On an on-track scan of a full sensor vector, the weighted average
lies in [0, (SENSOR_NUM - 1) * HEUR_OFFSET]. -/
theorem scan_div_range (vs : List Int)
    (hlen : (vs.length : Int) = SENSOR_NUM)
    (hot : (qrtScan vs).on_track = true) :
    0 ≤ (qrtScan vs).average / (qrtScan vs).sum ∧
    (qrtScan vs).average / (qrtScan vs).sum ≤ (SENSOR_NUM - 1) * HEUR_OFFSET := by
  obtain ⟨h1, h2, h3, h4, h5⟩ := qrtScan_inv vs
  have hpos : 0 < (qrtScan vs).sum := h5 hot
  have hheur : (qrtScan vs).heur_offset = (vs.length : Int) * HEUR_OFFSET := by
    simpa using foldl_heur vs ⟨0, 0, 0, false⟩
  have hbound : (qrtScan vs).average ≤ ((SENSOR_NUM - 1) * HEUR_OFFSET) * (qrtScan vs).sum := by
    have : (qrtScan vs).heur_offset - HEUR_OFFSET = (SENSOR_NUM - 1) * HEUR_OFFSET := by
      rw [hheur, hlen]; ring
    rw [this] at h4
    linarith [h4, mul_comm ((SENSOR_NUM - 1) * HEUR_OFFSET) (qrtScan vs).sum]
  constructor
  · exact Int.ediv_nonneg h1 (le_of_lt hpos)
  · calc (qrtScan vs).average / (qrtScan vs).sum
        ≤ ((SENSOR_NUM - 1) * HEUR_OFFSET) * (qrtScan vs).sum / (qrtScan vs).sum :=
          Int.ediv_le_ediv hpos hbound
      _ = (SENSOR_NUM - 1) * HEUR_OFFSET :=
          Int.mul_ediv_cancel _ (ne_of_gt hpos)

/-- The stored state of the estimator stays in the estimate range: a
track-loss call keeps it unchanged, an on-track call stores the weighted
average, which is in range. -/
theorem read_qrt_line_snd_range (lv : Int) (vs : List Int)
    (hvalid : validInput vs)
    (h0 : 0 ≤ lv) (h1 : lv ≤ (SENSOR_NUM - 1) * HEUR_OFFSET) :
    0 ≤ (read_qrt_line lv vs).2 ∧ (read_qrt_line lv vs).2 ≤ (SENSOR_NUM - 1) * HEUR_OFFSET := by
  by_cases hot : (qrtScan vs).on_track = true
  · have := scan_div_range vs hvalid.1 hot
    simp only [read_qrt_line, hot]
    simpa using this
  · have hfalse : (qrtScan vs).on_track = false := by
      revert hot; cases (qrtScan vs).on_track <;> simp
    simp [read_qrt_line, hfalse]
    split <;> exact ⟨h0, h1⟩

/-! Lemmas about the controller state machine `handle_move`. -/

theorem run_move_cons (st : MoveState) (vs : List Int) (inputs : List (List Int)) :
    run_move st (vs :: inputs) = run_move ((handle_move st vs).2) inputs := rfl

theorem handle_move_reset (st : MoveState) (vs : List Int) :
    ((handle_move st vs).2).reset_integral =
      (if st.reset_integral = INTEGRAL_RESET_ITER then 0 else st.reset_integral) + 1 := rfl

theorem run_move_reset (inputs : List (List Int)) : ∀ st : MoveState,
    0 ≤ st.reset_integral →
    st.reset_integral + (inputs.length : Int) ≤ INTEGRAL_RESET_ITER →
    (run_move st inputs).reset_integral = st.reset_integral + (inputs.length : Int) := by
  induction inputs with
  | nil => intro st h0 h1; simp [run_move]
  | cons vs inputs ih =>
    intro st h0 h1
    have hlen : ((vs :: inputs).length : Int) = (inputs.length : Int) + 1 := by
      push_cast [List.length_cons]; ring
    rw [hlen] at h1 ⊢
    have hlnn : (0 : Int) ≤ (inputs.length : Int) := Int.natCast_nonneg _
    have hne : st.reset_integral ≠ INTEGRAL_RESET_ITER := by omega
    have hstep : ((handle_move st vs).2).reset_integral = st.reset_integral + 1 := by
      rw [handle_move_reset, if_neg hne]
    rw [run_move_cons,
      ih ((handle_move st vs).2) (by rw [hstep]; omega) (by rw [hstep]; omega), hstep]
    ring

theorem handle_move_integral_reset (st : MoveState) (vs : List Int)
    (h : st.reset_integral = INTEGRAL_RESET_ITER) :
    ((handle_move st vs).2).integral =
      error_of ((read_qrt_line st.last_value vs).1) := by
  simp [handle_move, h]

theorem scan_on_track_false (vs : List Int) (h : ∀ v ∈ vs, v ≤ ON_TRACK_VALUE) :
    (qrtScan vs).on_track = false := by
  rw [qrtScan, foldl_on_track]
  simp only [Bool.false_or, List.any_eq_false, decide_eq_true_eq]
  intro x hx
  exact not_lt.mpr (h x hx)

theorem scan_on_track_true (vs : List Int) (h : ∃ v ∈ vs, v > ON_TRACK_VALUE) :
    (qrtScan vs).on_track = true := by
  rw [qrtScan, foldl_on_track]
  simp only [Bool.false_or, List.any_eq_true, decide_eq_true_eq]
  exact h

/-! The ten claims. -/

/-- Claim C1, counterexample.  The claim states the left duty always lies
in [0, LEFT_MAX_SPEED] and the right duty in [0, RIGHT_MAX_SPEED].  At
correction 100 the left command is clamped to the shared MAX_SPEED = 240,
exceeding LEFT_MAX_SPEED = 220; at correction -100 the right command is
240, exceeding RIGHT_MAX_SPEED = 210. -/
theorem C1_shared_clamp_cex :
    ¬ ((motor_speeds 100).1 ≤ LEFT_MAX_SPEED) ∧
    ¬ ((motor_speeds (-100)).2 ≤ RIGHT_MAX_SPEED) := by decide

/-- Claim C1, amended: for every signed correction value both motor
commands are clamped to the one shared maximum MAX_SPEED = 240 (the
per-motor calibrated maxima LEFT_MAX_SPEED and RIGHT_MAX_SPEED are
defined in the source but unused): each duty lies in [0, MAX_SPEED]. -/
theorem C1_motor_range (pid : Int) :
    0 ≤ (motor_speeds pid).1 ∧ (motor_speeds pid).1 ≤ MAX_SPEED ∧
    0 ≤ (motor_speeds pid).2 ∧ (motor_speeds pid).2 ≤ MAX_SPEED := by
  simp only [motor_speeds, clamp, BASE_SPEED, MAX_SPEED]
  refine ⟨?_, ?_, ?_, ?_⟩ <;> (dsimp only; split_ifs <;> omega)

/-- Claim C2 (code bug).  The claim says the update stores the current
error into last_error so the next derivative uses the previous cycle
error.  The code reads the static last_error in the derivative term but
never assigns to it: the state after any call carries last_error through
unchanged, and after two calls each with error 500 it is still 0. -/
theorem C2_last_error_never_stored :
    (∀ (st : MoveState) (vs : List Int),
      ((handle_move st vs).2).last_error = st.last_error) ∧
    (run_move initState [[0, 0, 0, 900, 0, 0], [0, 0, 0, 900, 0, 0]]).last_error = 0 ∧
    error_of ((read_qrt_line 0 [0, 0, 0, 900, 0, 0]).1) = 500 :=
  ⟨fun _ _ => rfl, by decide, by decide⟩

set_option maxRecDepth 10000 in
/-- Claim C3, counterexample.  After exactly INTEGRAL_RESET_ITER = 125
calls, each with sensor vector [0,0,0,900,0,0] (position 3000, error
500), the integral accumulator holds 62500, not 0: the reset only
happens at the start of the following call. -/
theorem C3_integral_after_125_cex :
    (run_move initState (List.replicate 125 [0, 0, 0, 900, 0, 0])).integral = 62500 ∧
    ((62500 : Int) = 0 → False) :=
  ⟨by decide, by decide⟩

/-- Claim C3, amended: starting from a state whose cycle counter is 0,
after any INTEGRAL_RESET_ITER calls the counter has reached
INTEGRAL_RESET_ITER, so the next call first resets the integral
accumulator to exactly 0 (regardless of the accumulated errors) and then
accumulates its own error: immediately after that next call the integral
equals that call's error alone. -/
theorem C3_integral_reset_next_call (st : MoveState) (hist : List (List Int)) (vs : List Int)
    (h0 : st.reset_integral = 0)
    (hlen : (hist.length : Int) = INTEGRAL_RESET_ITER) :
    ((handle_move (run_move st hist) vs).2).integral =
      error_of ((read_qrt_line (run_move st hist).last_value vs).1) := by
  have hr : (run_move st hist).reset_integral = INTEGRAL_RESET_ITER := by
    rw [run_move_reset hist st (by rw [h0]) (by rw [h0, hlen]; simp), h0, hlen]
    ring
  exact handle_move_integral_reset _ vs hr

set_option maxRecDepth 10000 in
/-- Witness for Claim C3 amended, at the concrete history of 125 calls
with constant error 500 followed by a centered reading. -/
theorem C3_integral_reset_next_call_witness :
    initState.reset_integral = 0 ∧
    (((List.replicate 125 [0, 0, 0, 900, 0, 0]).length : Int) = INTEGRAL_RESET_ITER) ∧
    ((handle_move (run_move initState (List.replicate 125 [0, 0, 0, 900, 0, 0]))
        [0, 0, 900, 900, 0, 0]).2).integral =
      error_of ((read_qrt_line
        (run_move initState (List.replicate 125 [0, 0, 0, 900, 0, 0])).last_value
        [0, 0, 900, 900, 0, 0]).1) :=
  ⟨rfl, by decide,
    C3_integral_reset_next_call initState (List.replicate 125 [0, 0, 0, 900, 0, 0])
      [0, 0, 900, 900, 0, 0] rfl (by decide)⟩

/-- Claim C4: when no reading exceeds ON_TRACK_VALUE the estimator takes
the track-loss branch (no division is reached): it returns 0 when the
stored estimate is below the midpoint (SENSOR_NUM - 1) * HEUR_OFFSET / 2
and (SENSOR_NUM - 1) * HEUR_OFFSET otherwise. -/
theorem C4_track_loss_boundary (lv : Int) (vs : List Int)
    (h : ∀ v ∈ vs, v ≤ ON_TRACK_VALUE) :
    (read_qrt_line lv vs).1 =
      if lv < (SENSOR_NUM - 1) * HEUR_OFFSET / 2 then 0
      else (SENSOR_NUM - 1) * HEUR_OFFSET := by
  have hot := scan_on_track_false vs h
  simp [read_qrt_line, hot, SENSOR_NUM, HEUR_OFFSET]
  split <;> rfl

/-- Witness for Claim C4 at a below-midpoint stored estimate and an
all-noise sensor vector. -/
theorem C4_track_loss_boundary_witness :
    (∀ v ∈ ([10, 20, 30, 40, 50, 60] : List Int), v ≤ ON_TRACK_VALUE) ∧
    (read_qrt_line 1000 [10, 20, 30, 40, 50, 60]).1 =
      (if (1000 : Int) < (SENSOR_NUM - 1) * HEUR_OFFSET / 2 then 0
       else (SENSOR_NUM - 1) * HEUR_OFFSET) :=
  ⟨by decide, C4_track_loss_boundary 1000 [10, 20, 30, 40, 50, 60] (by decide)⟩

/-- Claim C5: a track-loss cycle does not write the boundary value back
into the estimator state: the stored last on-track estimate is returned
unchanged. -/
theorem C5_track_loss_frame (lv : Int) (vs : List Int)
    (h : ∀ v ∈ vs, v ≤ ON_TRACK_VALUE) :
    (read_qrt_line lv vs).2 = lv := by
  have hot := scan_on_track_false vs h
  simp [read_qrt_line, hot]
  split <;> rfl

/-- Witness for Claim C5: stored estimate 4000 and all-zero readings
leave the stored estimate at 4000 (while the returned boundary is 5000,
per claim C4). -/
theorem C5_track_loss_frame_witness :
    (∀ v ∈ ([0, 0, 0, 0, 0, 0] : List Int), v ≤ ON_TRACK_VALUE) ∧
    (read_qrt_line 4000 [0, 0, 0, 0, 0, 0]).2 = 4000 :=
  ⟨by decide, C5_track_loss_frame 4000 [0, 0, 0, 0, 0, 0] (by decide)⟩

/-- Claim C6: for every valid sensor vector with at least one reading
strictly above ON_TRACK_VALUE, the estimator output lies in
[0, (SENSOR_NUM - 1) * HEUR_OFFSET]. -/
theorem C6_estimate_range (lv : Int) (vs : List Int)
    (hvalid : validInput vs)
    (htrack : ∃ v ∈ vs, v > ON_TRACK_VALUE) :
    0 ≤ (read_qrt_line lv vs).1 ∧
    (read_qrt_line lv vs).1 ≤ (SENSOR_NUM - 1) * HEUR_OFFSET := by
  have hot := scan_on_track_true vs htrack
  have hdiv := scan_div_range vs hvalid.1 hot
  simp only [read_qrt_line, hot]
  simpa using hdiv

/-- Witness for Claim C6 at a centered sensor vector. -/
theorem C6_estimate_range_witness :
    validInput [0, 0, 900, 900, 0, 0] ∧
    (∃ v ∈ ([0, 0, 900, 900, 0, 0] : List Int), v > ON_TRACK_VALUE) ∧
    (0 ≤ (read_qrt_line 0 [0, 0, 900, 900, 0, 0]).1 ∧
     (read_qrt_line 0 [0, 0, 900, 900, 0, 0]).1 ≤ (SENSOR_NUM - 1) * HEUR_OFFSET) :=
  ⟨by decide, by decide, C6_estimate_range 0 [0, 0, 900, 900, 0, 0] (by decide) (by decide)⟩

/-- Claim C7: on an on-track cycle the estimate is the integer weighted
average of exactly the readings strictly above NOISE_THRESHOLD
(weights i * HEUR_OFFSET), and the branch condition of the estimator is
exactly whether some reading is strictly above ON_TRACK_VALUE, so a
reading between the two thresholds enters both sums of the average but
does not by itself make the on-track condition true. -/
theorem C7_weighted_average (lv : Int) (vs : List Int)
    (h : (vs.any fun v => decide (v > ON_TRACK_VALUE)) = true) :
    (read_qrt_line lv vs).1 = specWeightedSum vs / specSum vs ∧
    (qrtScan vs).on_track = (vs.any fun v => decide (v > ON_TRACK_VALUE)) := by
  have hot : (qrtScan vs).on_track = (vs.any fun v => decide (v > ON_TRACK_VALUE)) := by
    rw [qrtScan, foldl_on_track]; simp
  refine ⟨?_, hot⟩
  have htrue : (qrtScan vs).on_track = true := hot.trans h
  have havg : (qrtScan vs).average = specWeightedSum vs := by
    have := foldl_average vs ⟨0, 0, 0, false⟩ 0 (by simp)
    simpa [qrtScan, specWeightedSum] using this
  have hsum : (qrtScan vs).sum = specSum vs := by
    have := foldl_sum vs ⟨0, 0, 0, false⟩
    simpa [qrtScan] using this
  simp [read_qrt_line, htrue, havg, hsum]

/-- Witness for Claim C7 at a vector with one marginal reading (100,
between the thresholds) and one on-track reading (900). -/
theorem C7_weighted_average_witness :
    (([0, 100, 900, 0, 0, 0] : List Int).any fun v => decide (v > ON_TRACK_VALUE)) = true ∧
    ((read_qrt_line 0 [0, 100, 900, 0, 0, 0]).1 =
        specWeightedSum [0, 100, 900, 0, 0, 0] / specSum [0, 100, 900, 0, 0, 0] ∧
      (qrtScan [0, 100, 900, 0, 0, 0]).on_track =
        (([0, 100, 900, 0, 0, 0] : List Int).any fun v => decide (v > ON_TRACK_VALUE))) :=
  ⟨by decide, C7_weighted_average 0 [0, 100, 900, 0, 0, 0] (by decide)⟩

/-- Claim C8: for the centered sensor vector [0,0,900,900,0,0] and the
fresh all-zero state, the estimator returns MIDDLE_ERROR = 2500, the
controller error is 0, and both motor commands equal BASE_SPEED. -/
theorem C8_centered_scenario :
    (read_qrt_line 0 [0, 0, 900, 900, 0, 0]).1 = MIDDLE_ERROR ∧
    error_of ((read_qrt_line 0 [0, 0, 900, 900, 0, 0]).1) = 0 ∧
    (handle_move initState [0, 0, 900, 900, 0, 0]).1 = (BASE_SPEED, BASE_SPEED) := by
  decide

/-- Helper for Claim C9: the stored estimate stays within the estimate
range along any run of valid sensor vectors, from any in-range start. -/
theorem run_qrt_range (inputs : List (List Int)) : ∀ lv : Int,
    (∀ vs ∈ inputs, validInput vs) →
    0 ≤ lv → lv ≤ (SENSOR_NUM - 1) * HEUR_OFFSET →
    0 ≤ run_qrt lv inputs ∧ run_qrt lv inputs ≤ (SENSOR_NUM - 1) * HEUR_OFFSET := by
  induction inputs with
  | nil => intro lv _ h0 h1; exact ⟨h0, h1⟩
  | cons vs inputs ih =>
    intro lv hv h0 h1
    have hstep := read_qrt_line_snd_range lv vs (hv vs (by simp)) h0 h1
    have hcons : run_qrt lv (vs :: inputs) = run_qrt ((read_qrt_line lv vs).2) inputs := rfl
    rw [hcons]
    exact ih _ (fun u hu => hv u (by simp [hu])) hstep.1 hstep.2

/-- Claim C9: starting from the initial stored estimate 0, the stored
last on-track estimate lies in [0, (SENSOR_NUM - 1) * HEUR_OFFSET] after
every sequence of valid sensor vectors. -/
theorem C9_last_value_invariant (inputs : List (List Int))
    (hv : ∀ vs ∈ inputs, validInput vs) :
    0 ≤ run_qrt 0 inputs ∧ run_qrt 0 inputs ≤ (SENSOR_NUM - 1) * HEUR_OFFSET :=
  run_qrt_range inputs 0 hv (le_refl 0) (by norm_num [SENSOR_NUM, HEUR_OFFSET])

/-- Witness for Claim C9 on a two-cycle run: one on-track vector, then a
track-loss vector. -/
theorem C9_last_value_invariant_witness :
    (∀ vs ∈ ([[0, 0, 900, 900, 0, 0], [0, 0, 0, 0, 0, 0]] : List (List Int)), validInput vs) ∧
    (0 ≤ run_qrt 0 [[0, 0, 900, 900, 0, 0], [0, 0, 0, 0, 0, 0]] ∧
     run_qrt 0 [[0, 0, 900, 900, 0, 0], [0, 0, 0, 0, 0, 0]] ≤ (SENSOR_NUM - 1) * HEUR_OFFSET) :=
  ⟨by decide, C9_last_value_invariant [[0, 0, 900, 900, 0, 0], [0, 0, 0, 0, 0, 0]] (by decide)⟩

/-- Claim C10: for every estimator output in the estimate range, the
unsigned 16-bit subtraction of MIDDLE_ERROR followed by reinterpretation
as a signed int yields exactly the mathematical difference
position - MIDDLE_ERROR. -/
theorem C10_error_narrowing_exact (p : Int)
    (h0 : 0 ≤ p) (h1 : p ≤ (SENSOR_NUM - 1) * HEUR_OFFSET) :
    error_of p = p - MIDDLE_ERROR := by
  unfold error_of toUInt16 toInt16
  simp only [MIDDLE_ERROR, SENSOR_NUM, HEUR_OFFSET] at *
  omega

/-- Witness for Claim C10 at position 0, the largest-magnitude case:
the wrapped subtraction still yields -2500 exactly. -/
theorem C10_error_narrowing_exact_witness :
    (0 : Int) ≤ 0 ∧ (0 : Int) ≤ (SENSOR_NUM - 1) * HEUR_OFFSET ∧
    error_of 0 = 0 - MIDDLE_ERROR :=
  ⟨by decide, by decide, C10_error_narrowing_exact 0 (by decide) (by decide)⟩

end LineFollower
